import Mathlib

/-!
Verification development for the Live Session Assistant of the
Speech-Path-Pro repository.  The definitions below are shallow embeddings of
the TypeScript source: `src/components/NoteEditor.tsx` (audio frame encoder,
streaming session controller, transcript buffer, intent dispatcher, session
finalizer) and `src/unnamed/part_003` (per-subject draft store with undo
history).  JavaScript strings are modelled by Lean `String`, JS arrays by
`List`, JS numbers holding trial tallies by `Nat`, and the IEEE-754 values
appearing in the finalizer and audio encoder by exact rationals `ℚ`
(multiplication by the power of two 32768 is exact in doubles, so the scaling
step loses nothing; the accuracy quotient is modelled as an exact rational).
-/

namespace SpeechPathPro

/-- Whitespace test used by JavaScript's `String.prototype.trim` (restricted
to the ASCII whitespace characters that can actually occur in the
transcription strings handled here). -/
def jsWhitespaceChar (c : Char) : Bool :=
  c = ' ' || c = '\t' || c = '\n' || c = '\r'

/-- Model of JavaScript `s.trim()`: strip leading and trailing whitespace. -/
def jsTrim (s : String) : String :=
  ⟨((s.data.dropWhile jsWhitespaceChar).reverse.dropWhile jsWhitespaceChar).reverse⟩

/-- Model of JavaScript `s.toLowerCase()` (ASCII case folding). -/
def jsToLower (s : String) : String :=
  ⟨s.data.map Char.toLower⟩

/-- Model of JavaScript `a.includes(b)`: `b` occurs as a contiguous substring
of `a`. -/
def strIncludes (a b : String) : Bool :=
  a.data.tails.any fun t => b.data.isPrefixOf t

/-- Model of JavaScript `arr.slice(-n)`: the suffix holding the last `n`
elements (the whole array when it is shorter than `n`). -/
def sliceLast (n : Nat) (l : List α) : List α :=
  l.drop (l.length - n)

/-! ## Transcript buffer (`NoteEditor.tsx`, `onmessage`, lines 223-231)

State touched by the transcription branch of the message handler: the
in-turn accumulator `transcriptBuffer`, the provisional display string
`currentTranscription`, and the capped completed-turn log `liveTranscript`. -/

structure TranscriptState where
  transcriptBuffer : String
  currentTranscription : String
  liveTranscript : List String
deriving DecidableEq, Repr

/-- Initial transcript state (`transcriptBuffer = ""`, empty log). -/
def initTranscript : TranscriptState :=
  { transcriptBuffer := "", currentTranscription := "", liveTranscript := [] }

/-- Embedding of the transcription branch of `onmessage`
(`NoteEditor.tsx` lines 223-231): append the chunk to the accumulator, show
it as the provisional transcription and, when `turnComplete` is set, push the
trimmed accumulator onto `liveTranscript` through
`prev.slice(-30) ++ [entry]` provided the trimmed text is non-empty, then
clear the accumulator and the provisional string. -/
def appendDelta (s : TranscriptState) (chunk : String) (turnComplete : Bool) :
    TranscriptState :=
  let buf := s.transcriptBuffer ++ chunk
  if turnComplete then
    { transcriptBuffer := ""
      currentTranscription := ""
      liveTranscript :=
        if (jsTrim buf).isEmpty then s.liveTranscript
        else sliceLast 30 s.liveTranscript ++ [jsTrim buf] }
  else
    { s with transcriptBuffer := buf, currentTranscription := buf }

/-- Run a sequence of inbound transcription messages
`(text, turnComplete)` through the handler. -/
def runDeltas (s : TranscriptState) (events : List (String × Bool)) :
    TranscriptState :=
  events.foldl (fun st e => appendDelta st e.1 e.2) s

/-- Specification-side reading of a delta sequence: the list of completed
turns, i.e. the trimmed accumulated text of every turn whose final delta
carried `turnComplete = true` and whose trimmed text is non-empty, in
arrival order.  `buf` is the text already accumulated for the open turn. -/
def completedTurns : List (String × Bool) → String → List String
  | [], _ => []
  | (chunk, tc) :: rest, buf =>
    let b := buf ++ chunk
    if tc then
      (if (jsTrim b).isEmpty then [] else [jsTrim b]) ++ completedTurns rest ""
    else
      completedTurns rest b

/-! ## Data model and intent dispatcher (`NoteEditor.tsx`, `onmessage`,
lines 233-265)

`StudentSessionState` is the per-subject session draft
(`NoteEditor.tsx` lines 20-30).  Cuing levels and task settings are plain
strings at run time (the TypeScript enum types erase), so they are modelled
by `String`.  Trial tallies only ever start at a non-negative value and are
incremented or reset, so they are modelled by `Nat`. -/

structure SoapFields where
  subjective : String
  objective : String
  assessment : String
  plan : String
deriving DecidableEq, Repr

structure StudentSessionState where
  rawObservations : String
  soap : SoapFields
  correctTally : Nat
  incorrectTally : Nat
  cuingLevel : String
  setting : String
  selectedGoalText : String
  selectedPlanId : String
  parentLetter : String
deriving DecidableEq, Repr

/-- The parts of a roster `Student` the dispatcher reads: its id and
display name. -/
structure Student where
  id : String
  name : String
deriving DecidableEq, Repr

/-- The `sessionStates` map.  The initialization effect
(`NoteEditor.tsx` lines 93-127) creates one draft per group member before
any message can arrive, so the map is modelled as total. -/
def SessionStates : Type := String → StudentSessionState

/-- One structured intent event (an entry of `message.toolCall.functionCalls`).
The `args` object of a malformed remote payload can lack any field, hence
the `Option` types; `status`, `text` and `level` flow into expressions that
tolerate `undefined`, while a missing `student_name` makes the handler throw
(see `processFunctionCall`). -/
structure FunctionCall where
  name : String
  id : String
  student_name : Option String
  status : Option String
  text : Option String
  level : Option String
deriving DecidableEq, Repr

/-- The acknowledgement sent through `sendToolResponse`
(`NoteEditor.tsx` line 264): `{ id: fc.id, ..., response: { result: "ok" } }`. -/
structure ToolAck where
  callId : String
  result : String
deriving DecidableEq, Repr

/-- The matching predicate of `NoteEditor.tsx` line 235:
`s.name.toLowerCase().includes(hint.toLowerCase())` — the lowercased display
name must contain the lowercased hint. -/
def nameMatches (s : Student) (hint : String) : Bool :=
  strIncludes (jsToLower s.name) (jsToLower hint)

/-- Subject resolution (`NoteEditor.tsx` line 235):
`studentsInGroup.find(s => s.name.toLowerCase().includes(hint.toLowerCase()))`. -/
def resolveTarget (group : List Student) (hint : String) : Option Student :=
  group.find? fun s => nameMatches s hint

/-- Specification-side resolver, written from the spec's words for
comparison with `resolveTarget`: the first subject whose display name
contains the hint "or, vice versa, whose display name is contained in the
hint" (case-insensitive both ways). -/
def specResolveBidirectional (group : List Student) (hint : String) :
    Option Student :=
  group.find? fun s =>
    strIncludes (jsToLower s.name) (jsToLower hint) ||
      strIncludes (jsToLower hint) (jsToLower s.name)

/-- Functional update of the `sessionStates` map at one subject id, the
shape of every `setSessionStates(prev => ({ ...prev, [id]: ... }))` call. -/
def updateStates (states : SessionStates) (id : String)
    (f : StudentSessionState → StudentSessionState) : SessionStates :=
  fun k => if k = id then f (states k) else states k

/-- Draft mutation applied once a target subject `t` is resolved
(`NoteEditor.tsx` lines 237-263).  The three `if (fc.name === ...)` blocks
of the source are sequential and keyed on distinct string literals:

* `record_trial` bumps `correctTally` when `fc.args.status === 'correct'`
  and `incorrectTally` otherwise (the source computes the key with
  `status === 'correct' ? 'correctTally' : 'incorrectTally'`);
* `add_observation` appends a bulleted line to `rawObservations`, preceded
  by a newline iff the field is non-empty; the bullet prefix is the byte
  sequence the source file carries, and a missing `text` argument is
  stringified to `"undefined"` by the template literal;
* `update_cuing_level` overwrites `cuingLevel` (a missing `level` argument
  is modelled the same way);
* any other `fc.name` mutates nothing.

The transient `flashTally`/`flashCuing` UI signals and their timeouts are
pure side channels and are not part of the draft state. -/
def applyIntent (states : SessionStates) (t : Student) (fc : FunctionCall) :
    SessionStates :=
  let s1 :=
    if fc.name = "record_trial" then
      updateStates states t.id fun d =>
        if fc.status = some "correct" then
          { d with correctTally := d.correctTally + 1 }
        else
          { d with incorrectTally := d.incorrectTally + 1 }
    else states
  let s2 :=
    if fc.name = "add_observation" then
      updateStates s1 t.id fun d =>
        { d with rawObservations :=
            d.rawObservations ++
              (if d.rawObservations = "" then "" else "\n") ++
              "â€¢ " ++ fc.text.getD "undefined" }
    else s1
  if fc.name = "update_cuing_level" then
    updateStates s2 t.id fun d => { d with cuingLevel := fc.level.getD "undefined" }
  else s2

/-- Embedding of one iteration of the `for (const fc of
message.toolCall.functionCalls)` loop (`NoteEditor.tsx` lines 234-264).
The loop body first evaluates `fc.args.student_name.toLowerCase()`; when
`student_name` is absent this throws a `TypeError` (modelled as the
`.error` branch), so neither the mutation nor the acknowledgement happens.
Otherwise the target is resolved, the draft mutation (if any) is applied,
and one acknowledgement `{ id: fc.id, response: { result: "ok" } }` is sent
unconditionally. -/
def dispatchResolved (group : List Student) (states : SessionStates)
    (fc : FunctionCall) (hint : String) : SessionStates :=
  match resolveTarget group hint with
  | none => states
  | some t => applyIntent states t fc

def processFunctionCall (group : List Student) (states : SessionStates)
    (fc : FunctionCall) : Except String (SessionStates × ToolAck) :=
  match fc.student_name with
  | none => .error "TypeError: fc.args.student_name is undefined"
  | some hint =>
    .ok (dispatchResolved group states fc hint, { callId := fc.id, result := "ok" })

/-- Embedding of the whole `message.toolCall` branch: the function calls of
one inbound message are processed strictly in order; a thrown `TypeError`
aborts the remaining iterations of the loop. -/
def processToolCall (group : List Student) (states : SessionStates) :
    List FunctionCall → Except String (SessionStates × List ToolAck)
  | [] => .ok (states, [])
  | fc :: rest =>
    match processFunctionCall group states fc with
    | .error e => .error e
    | .ok (st1, ack) =>
      match processToolCall group st1 rest with
      | .error e => .error e
      | .ok (stF, acks) => .ok (stF, ack :: acks)

/-- The subject id an event would resolve to (specification-side reading
used to count events per subject). -/
def resolvedId (group : List Student) (fc : FunctionCall) : Option String :=
  fc.student_name.bind fun hint => (resolveTarget group hint).map Student.id

/-- Predicate: `fc` is a `record_trial` event carrying the given `status`
value that resolves to subject `sid`. -/
def trialFor (group : List Student) (sid status : String)
    (fc : FunctionCall) : Bool :=
  fc.name = "record_trial" && fc.status = some status &&
    resolvedId group fc = some sid

/-- Predicate: `fc` is a `record_trial` event resolving to `sid` whose
`status` is anything other than `"correct"` — the exact condition under
which the source increments `incorrectTally`. -/
def trialNotCorrectFor (group : List Student) (sid : String)
    (fc : FunctionCall) : Bool :=
  fc.name = "record_trial" && !(fc.status = some "correct" : Bool) &&
    resolvedId group fc = some sid

/-- Number of `record_trial` events in `events` that resolve to subject
`sid` and carry the given `status` value. -/
def countTrials (group : List Student) (events : List FunctionCall)
    (sid : String) (status : String) : Nat :=
  events.countP (trialFor group sid status)

/-! ## Session finalizer (`NoteEditor.tsx`, `handleSaveAll`, lines 291-307) -/

/-- Model of JavaScript `Math.round` on a non-negative rational:
round half away from zero, i.e. `⌊q + 1/2⌋` (for non-negative `q`,
`Math.round(q) = floor(q + 0.5)`).  The double-precision quotient computed
by the source is modelled as the exact rational. -/
def jsMathRound (q : ℚ) : ℤ :=
  ⌊q + 1 / 2⌋

/-- The metrics block of a persisted note (`types.ts`, `SessionMetrics`). -/
structure SessionMetrics where
  accuracy : Nat
  totalTrials : Nat
  cuingLevel : String
  setting : String
  focusGoalId : String
deriving DecidableEq, Repr

/-- The fields of a finalized output record computed from the session draft
by `handleSaveAll`.  The impure `id` and `date` fields (built from
`Date.now()`/`new Date()` and the optional `initialNote`) carry no session
data and are left out of the model. -/
structure OutputNote where
  studentId : String
  soap : SoapFields
  parentGuide : String
  lessonPlanId : Option String
  metrics : Option SessionMetrics
deriving DecidableEq, Repr

/-- Finalization of one subject's draft (`NoteEditor.tsx` lines 292-304):
`total = correctTally + incorrectTally`;
`accuracy = total > 0 ? Math.round((correctTally / total) * 100) : 0`;
the metrics object is attached only when `total > 0` and is `undefined`
otherwise; an empty `selectedPlanId` becomes `undefined` via
`st.selectedPlanId || undefined`. -/
def finalizeNote (s : Student) (st : StudentSessionState) : OutputNote :=
  let total := st.correctTally + st.incorrectTally
  let accuracy : Nat :=
    if total > 0 then (jsMathRound ((st.correctTally : ℚ) / total * 100)).toNat
    else 0
  { studentId := s.id
    soap := st.soap
    parentGuide := st.parentLetter
    lessonPlanId := if st.selectedPlanId = "" then none else some st.selectedPlanId
    metrics :=
      if total > 0 then
        some { accuracy := accuracy
               totalTrials := total
               cuingLevel := st.cuingLevel
               setting := st.setting
               focusGoalId := st.selectedGoalText }
      else none }

/-- Embedding of `handleSaveAll`: one output record per group member, in
group order (`studentsInGroup.map(...)`). -/
def handleSaveAll (group : List Student) (states : SessionStates) :
    List OutputNote :=
  group.map fun s => finalizeNote s (states s.id)

/-! ## Per-subject draft store with undo history
(`src/unnamed/part_003`, lines 107-131)

`saveHistorySnapshot` and `handleUndo` never inspect the draft's fields
(`JSON.parse(JSON.stringify(x))` is the identity on the plain
string/number/null records stored here), so the store is embedded
generically in the draft type `α`.  `historyStacks[id]` may be absent in the
source and is then coalesced to `[]` by `prev[id] || []` and rejected by the
`!stack` guard, so stacks are modelled as a total map defaulting to `[]`;
`sessionStates[id]` genuinely may be absent (the `!currentState` guard), so
drafts stay optional. -/

def MAX_HISTORY : Nat := 10

structure HistoryStore (α : Type) where
  sessionStates : String → Option α
  historyStacks : String → List α

/-- Embedding of `saveHistorySnapshot` (`part_003` lines 107-116): no-op if
the subject has no draft; otherwise push a deep copy of the current draft
onto the front of the subject's stack and truncate to `MAX_HISTORY`
(`[copy, ...stack].slice(0, MAX_HISTORY)`). -/
def saveHistorySnapshot (s : HistoryStore α) (id : String) : HistoryStore α :=
  match s.sessionStates id with
  | none => s
  | some cur =>
    { s with historyStacks :=
        fun k => if k = id then (cur :: s.historyStacks id).take MAX_HISTORY
                 else s.historyStacks k }

/-- Embedding of `handleUndo` (`part_003` lines 118-127): no-op if the
subject's stack is empty; otherwise pop the most recent snapshot and make it
the current draft. -/
def handleUndo (s : HistoryStore α) (id : String) : HistoryStore α :=
  match s.historyStacks id with
  | [] => s
  | prev :: rest =>
    { sessionStates := fun k => if k = id then some prev else s.sessionStates k
      historyStacks := fun k => if k = id then rest else s.historyStacks k }

/-- A mutation of one subject's draft (`updateState`, `part_003`
lines 129-131, with `{ ...prev[id], ...updates }`): the subject's draft is
replaced by some new value `d`; every shallow merge is of this shape. -/
def setDraft (s : HistoryStore α) (id : String) (d : α) : HistoryStore α :=
  { s with sessionStates := fun k => if k = id then some d else s.sessionStates k }

/-! ## Audio frame encoder (`NoteEditor.tsx`, `encode` lines 37-44 and
`createBlob` lines 46-56)

Captured samples are IEEE-754 values; each is modelled as the exact
rational it denotes.  `data[i] * 32768` multiplies by a power of two and is
therefore exact in doubles, so the scaled value is again modelled exactly.
Storing into an `Int16Array` applies JavaScript's `ToInt16`: truncation
toward zero, then reduction modulo 2^16 into the signed 16-bit range. -/

/-- JavaScript truncation toward zero of a rational. -/
def jsTrunc (q : ℚ) : ℤ :=
  if 0 ≤ q then ⌊q⌋ else ⌈q⌉

/-- JavaScript `ToInt16`: reduce the truncated value modulo 2^16 and
reinterpret as a signed 16-bit integer. -/
def toInt16 (q : ℚ) : ℤ :=
  let m := jsTrunc q % 65536
  if m < 32768 then m else m - 65536

/-- Little-endian byte serialization of one signed 16-bit value, the layout
`new Uint8Array(int16.buffer)` exposes. -/
def int16LEBytes (v : ℤ) : List Nat :=
  let u := (v % 65536).toNat
  [u % 256, u / 256]

/-- The base64 alphabet used by `btoa`. -/
def base64Alphabet : List Char :=
  "ABCDEFGHIJKLMNOPQRSTUVWXYZabcdefghijklmnopqrstuvwxyz0123456789+/".data

/-- Character for a 6-bit group. -/
def base64Char (n : Nat) : Char :=
  base64Alphabet.getD n '?'

/-- Base64 encoding of a byte list with standard `=` padding, the behaviour
of `btoa` on a binary string. -/
def base64Encode : List Nat → List Char
  | [] => []
  | [a] =>
    [base64Char (a / 4), base64Char (a % 4 * 16), '=', '=']
  | [a, b] =>
    [base64Char (a / 4), base64Char (a % 4 * 16 + b / 16),
     base64Char (b % 16 * 4), '=']
  | a :: b :: c :: rest =>
    base64Char (a / 4) :: base64Char (a % 4 * 16 + b / 16) ::
      base64Char (b % 16 * 4 + c / 64) :: base64Char (c % 64) ::
        base64Encode rest

/-- Embedding of `encode` (`NoteEditor.tsx` lines 37-44): the bytes are
turned into a binary string by `String.fromCharCode` and fed to `btoa`,
which base64-encodes exactly those byte values. -/
def encode (bytes : List Nat) : String :=
  ⟨base64Encode bytes⟩

/-- The wire frame `{ data, mimeType }` produced by the encoder. -/
structure AudioFrame where
  data : String
  mimeType : String
deriving DecidableEq, Repr

/-- Embedding of `createBlob` (`NoteEditor.tsx` lines 46-56): scale each
sample by 32768 into an `Int16Array`, expose its buffer as bytes
(little-endian), and base64-encode them; tag with
`audio/pcm;rate=16000`. -/
def createBlob (data : List ℚ) : AudioFrame :=
  let int16 := data.map fun x => toInt16 (x * 32768)
  { data := encode (int16.map int16LEBytes).flatten
    mimeType := "audio/pcm;rate=16000" }

/-- Specification-side serialization: the per-sample 16-bit signed
little-endian PCM byte stream of a buffer, written as a direct recursion. -/
def specPcmBytes : List ℚ → List Nat
  | [] => []
  | x :: xs => int16LEBytes (toInt16 (x * 32768)) ++ specPcmBytes xs

/-! ## Streaming session controller (`NoteEditor.tsx`,
`toggleLiveAssistant` lines 174-276, unmount cleanup lines 135-140)

The controller's observable resource behaviour is embedded as a transition
system.  Events are the entry points the browser can fire: the toggle
button (dispatched on the current status), the `onopen`/`onclose`/`onerror`
callbacks of the live connection, the rejection of the `getUserMedia`
promise, and component unmount.  The counters record how many microphone
streams `getUserMedia` handed out and how many were released by stopping
their tracks; the source never calls `track.stop()` (nor
`stream.getTracks()`) on any path, so no transition increments
`micReleased`. -/

inductive LiveStatus
  | idle
  | connecting
  | active
deriving DecidableEq, Repr

structure CtrlState where
  status : LiveStatus
  micAcquired : Nat
  micReleased : Nat
  connPending : Bool
  sessionOpen : Bool
deriving DecidableEq, Repr

inductive CtrlEvent
  | startGranted
  | startDenied
  | opened
  | togglePressed
  | remoteClosed
  | remoteError
  | unmounted
deriving DecidableEq, Repr

def ctrlInit : CtrlState :=
  { status := .idle, micAcquired := 0, micReleased := 0
    connPending := false, sessionOpen := false }

/-- One controller transition.

* `startGranted`: the toggle is pressed while idle and `getUserMedia`
  resolves — status becomes `connecting`, one microphone stream is
  acquired, and a connection attempt is pending (lines 181-272).
* `startDenied`: the toggle is pressed while idle and `getUserMedia`
  rejects — the `catch` resets the status to `idle` (lines 273-275).
* `opened`: the pending connection's `onopen` fires — status becomes
  `active` unconditionally (line 212).
* `togglePressed` while not idle: status is set to `idle` and
  `sessionRef.current.close()` closes the network session if it was
  established (lines 175-179); no microphone track is stopped.
* `remoteClosed` / `remoteError`: the callbacks only run
  `setLiveStatus('idle')` (lines 268-269); the remote end closed the
  connection, and again no microphone track is stopped.
* `unmounted`: the cleanup effect closes the session and the audio context
  (lines 135-140) — still without stopping the microphone stream. -/
def ctrlStep (s : CtrlState) : CtrlEvent → CtrlState
  | .startGranted =>
    if s.status = .idle then
      { s with status := .connecting
               micAcquired := s.micAcquired + 1
               connPending := true }
    else s
  | .startDenied =>
    if s.status = .idle then { s with status := .idle } else s
  | .opened =>
    if s.connPending then
      { s with status := .active, connPending := false, sessionOpen := true }
    else s
  | .togglePressed =>
    if s.status = .idle then s
    else { s with status := .idle, sessionOpen := false }
  | .remoteClosed => { s with status := .idle, sessionOpen := false }
  | .remoteError => { s with status := .idle }
  | .unmounted => { s with sessionOpen := false }

/-- Run a sequence of controller events from a state. -/
def ctrlRun (s : CtrlState) (events : List CtrlEvent) : CtrlState :=
  events.foldl ctrlStep s

/-! ## Concrete fixtures used by witnesses and counterexamples -/

/-- A fresh draft, as created by the initialization effect for a subject
with primary goal `"g"` and no preselected plan. -/
def emptyDraft : StudentSessionState :=
  { rawObservations := ""
    soap := { subjective := "", objective := "", assessment := "", plan := "" }
    correctTally := 0
    incorrectTally := 0
    cuingLevel := "Moderate"
    setting := "Structured"
    selectedGoalText := "g"
    selectedPlanId := ""
    parentLetter := "" }

/-- A session-state map giving every subject a fresh draft. -/
def baseStates : SessionStates := fun _ => emptyDraft

def leoMartinez : Student := { id := "s1", name := "Leo Martinez" }

def leoShort : Student := { id := "s1", name := "Leo" }

def miaChen : Student := { id := "s2", name := "Mia Chen" }

/-- An intent event whose hint matches nobody in a `{Leo Martinez}` group. -/
def fcZzz : FunctionCall :=
  { name := "record_trial", id := "c9", student_name := some "zzz-no-match"
    status := some "correct", text := none, level := none }

/-- A malformed intent event: the payload carries no `student_name`. -/
def fcMissingName : FunctionCall :=
  { name := "record_trial", id := "m1", student_name := none
    status := some "correct", text := none, level := none }

/-- A well-formed correct-trial event for Leo. -/
def fcLeoCorrect : FunctionCall :=
  { name := "record_trial", id := "t1", student_name := some "leo"
    status := some "correct", text := none, level := none }

/-- A well-formed incorrect-trial event for Leo. -/
def fcLeoIncorrect : FunctionCall :=
  { name := "record_trial", id := "t2", student_name := some "leo"
    status := some "incorrect", text := none, level := none }

/-- A well-formed correct-trial event for Mia. -/
def fcMiaCorrect : FunctionCall :=
  { name := "record_trial", id := "t3", student_name := some "mia"
    status := some "correct", text := none, level := none }

/-! ## Helper lemmas -/

theorem sliceLast_eq_rtake (n : Nat) (l : List α) :
    sliceLast n l = l.rtake n := rfl

theorem sliceLast_eq_reverse_take (n : Nat) (l : List α) :
    sliceLast n l = (l.reverse.take n).reverse := by
  rw [sliceLast_eq_rtake, List.rtake_eq_reverse_take_reverse]

theorem sliceLast_length_le (n : Nat) (l : List α) :
    (sliceLast n l).length ≤ n := by
  rw [sliceLast_eq_reverse_take]
  simp only [List.length_reverse, List.length_take]
  omega

/-- Re-slicing absorbs an inner slice: keeping the last `n` of
`(last m of a) ++ r` equals keeping the last `n` of `a ++ r`, provided the
inner slice cannot cut into the kept region (`n ≤ m + |r|`). -/
theorem sliceLast_sliceLast_append (n m : Nat) (a r : List α)
    (h : n ≤ m + r.length) :
    sliceLast n (sliceLast m a ++ r) = sliceLast n (a ++ r) := by
  simp only [sliceLast_eq_reverse_take, List.reverse_append, List.reverse_reverse]
  rw [List.take_append_eq_append_take, List.take_append_eq_append_take,
    List.take_take, List.length_reverse]
  have hmin : min (n - r.length) m = n - r.length := by omega
  rw [hmin]

/-- Fold invariant for the transcript handler: starting from any state whose
log is within the real cap of 31, the log after a delta sequence is the
last 31 entries of the old log followed by the turns the sequence
completes. -/
theorem runDeltas_liveTranscript (events : List (String × Bool)) :
    ∀ (buf cur : String) (log : List String), log.length ≤ 31 →
      (runDeltas ⟨buf, cur, log⟩ events).liveTranscript =
        sliceLast 31 (log ++ completedTurns events buf) := by
  induction events with
  | nil =>
    intro buf cur log hlen
    simp only [runDeltas, List.foldl_nil, completedTurns, List.append_nil]
    unfold sliceLast
    have h0 : log.length - 31 = 0 := by omega
    rw [h0, List.drop_zero]
  | cons e rest ih =>
    intro buf cur log hlen
    obtain ⟨chunk, tc⟩ := e
    have hstep : runDeltas ⟨buf, cur, log⟩ ((chunk, tc) :: rest)
        = runDeltas (appendDelta ⟨buf, cur, log⟩ chunk tc) rest := rfl
    rw [hstep]
    cases tc with
    | false =>
      have hd : appendDelta ⟨buf, cur, log⟩ chunk false
          = ⟨buf ++ chunk, buf ++ chunk, log⟩ := by
        simp [appendDelta]
      rw [hd, ih (buf ++ chunk) (buf ++ chunk) log hlen]
      simp [completedTurns]
    | true =>
      by_cases hnil : (jsTrim (buf ++ chunk)).isEmpty
      · have hd : appendDelta ⟨buf, cur, log⟩ chunk true = ⟨"", "", log⟩ := by
          simp [appendDelta, hnil]
        rw [hd, ih "" "" log hlen]
        simp [completedTurns, hnil]
      · have hd : appendDelta ⟨buf, cur, log⟩ chunk true
            = ⟨"", "", sliceLast 30 log ++ [jsTrim (buf ++ chunk)]⟩ := by
          simp [appendDelta, hnil]
        rw [hd, ih "" "" _ (by
          have h30 := sliceLast_length_le 30 log
          simp only [List.length_append, List.length_cons, List.length_nil]
          omega)]
        calc sliceLast 31 ((sliceLast 30 log ++ [jsTrim (buf ++ chunk)])
                ++ completedTurns rest "")
            = sliceLast 31 (sliceLast 30 log
                ++ ([jsTrim (buf ++ chunk)] ++ completedTurns rest "")) := by
              rw [List.append_assoc]
          _ = sliceLast 31 (log
                ++ ([jsTrim (buf ++ chunk)] ++ completedTurns rest "")) :=
              sliceLast_sliceLast_append 31 30 log _ (by
                simp only [List.length_append, List.length_cons, List.length_nil]
                omega)
          _ = sliceLast 31 (log ++ completedTurns ((chunk, true) :: rest) buf) := by
              simp [completedTurns, hnil]

/-! ## Dispatcher lemmas -/

theorem applyIntent_ne (states : SessionStates) (t : Student) (fc : FunctionCall)
    (k : String) (hk : ¬ k = t.id) :
    applyIntent states t fc k = states k := by
  unfold applyIntent
  split_ifs <;> simp [updateStates, hk]

theorem applyIntent_correctTally (states : SessionStates) (t : Student)
    (fc : FunctionCall) (sid : String) :
    (applyIntent states t fc sid).correctTally
      = (states sid).correctTally
        + (if sid = t.id ∧ fc.name = "record_trial" ∧ fc.status = some "correct"
           then 1 else 0) := by
  by_cases hn : fc.name = "record_trial"
  · by_cases hid : sid = t.id
    · by_cases hst : fc.status = some "correct" <;>
        simp [applyIntent, updateStates, hn, hid, hst]
    · simp [applyIntent, updateStates, hn, hid]
  · by_cases ho : fc.name = "add_observation"
    · by_cases hid : sid = t.id <;>
        simp [applyIntent, updateStates, hn, ho, hid]
    · by_cases hu : fc.name = "update_cuing_level"
      · by_cases hid : sid = t.id <;>
          simp [applyIntent, updateStates, hn, ho, hu, hid]
      · simp [applyIntent, updateStates, hn, ho, hu]

theorem applyIntent_incorrectTally (states : SessionStates) (t : Student)
    (fc : FunctionCall) (sid : String) :
    (applyIntent states t fc sid).incorrectTally
      = (states sid).incorrectTally
        + (if sid = t.id ∧ fc.name = "record_trial" ∧ ¬ fc.status = some "correct"
           then 1 else 0) := by
  by_cases hn : fc.name = "record_trial"
  · by_cases hid : sid = t.id
    · by_cases hst : fc.status = some "correct" <;>
        simp [applyIntent, updateStates, hn, hid, hst]
    · simp [applyIntent, updateStates, hn, hid]
  · by_cases ho : fc.name = "add_observation"
    · by_cases hid : sid = t.id <;>
        simp [applyIntent, updateStates, hn, ho, hid]
    · by_cases hu : fc.name = "update_cuing_level"
      · by_cases hid : sid = t.id <;>
          simp [applyIntent, updateStates, hn, ho, hu, hid]
      · simp [applyIntent, updateStates, hn, ho, hu]

theorem processFunctionCall_some (group : List Student) (states : SessionStates)
    (fc : FunctionCall) (hint : String) (h : fc.student_name = some hint) :
    processFunctionCall group states fc
      = .ok (dispatchResolved group states fc hint,
             { callId := fc.id, result := "ok" }) := by
  simp only [processFunctionCall, h]

theorem dispatchResolved_correctTally (group : List Student)
    (states : SessionStates) (fc : FunctionCall) (hint sid : String)
    (h : fc.student_name = some hint) :
    (dispatchResolved group states fc hint sid).correctTally
      = (states sid).correctTally
        + (if trialFor group sid "correct" fc = true then 1 else 0) := by
  unfold dispatchResolved
  cases hr : resolveTarget group hint with
  | none =>
    have hrid : resolvedId group fc = none := by simp [resolvedId, h, hr]
    simp [trialFor, hrid]
  | some t =>
    have hrid : resolvedId group fc = some t.id := by simp [resolvedId, h, hr]
    rw [applyIntent_correctTally]
    congr 1
    by_cases h1 : fc.name = "record_trial" <;>
      by_cases h2 : fc.status = some "correct" <;>
        by_cases h3 : sid = t.id <;>
          simp [trialFor, hrid, h1, h2, h3, eq_comm]

theorem dispatchResolved_incorrectTally (group : List Student)
    (states : SessionStates) (fc : FunctionCall) (hint sid : String)
    (h : fc.student_name = some hint) :
    (dispatchResolved group states fc hint sid).incorrectTally
      = (states sid).incorrectTally
        + (if trialNotCorrectFor group sid fc = true then 1 else 0) := by
  unfold dispatchResolved
  cases hr : resolveTarget group hint with
  | none =>
    have hrid : resolvedId group fc = none := by simp [resolvedId, h, hr]
    simp [trialNotCorrectFor, hrid]
  | some t =>
    have hrid : resolvedId group fc = some t.id := by simp [resolvedId, h, hr]
    rw [applyIntent_incorrectTally]
    congr 1
    by_cases h1 : fc.name = "record_trial" <;>
      by_cases h2 : fc.status = some "correct" <;>
        by_cases h3 : sid = t.id <;>
          simp [trialNotCorrectFor, hrid, h1, h2, h3, eq_comm]

/-- Totality and bookkeeping of the function-call loop on a well-formed
message: every event carrying a subject hint is processed, each yields
exactly one acknowledgement `{ callId := fc.id, result := "ok" }` in
arrival order, and each subject's tallies grow by exactly the number of
`record_trial` events resolving to it. -/
theorem processToolCall_run (group : List Student) :
    ∀ (events : List FunctionCall) (states : SessionStates),
      (∀ e ∈ events, e.student_name.isSome = true) →
      ∃ final : SessionStates,
        processToolCall group states events
          = .ok (final, events.map fun e => { callId := e.id, result := "ok" }) ∧
        ∀ sid : String,
          (final sid).correctTally = (states sid).correctTally
              + events.countP (trialFor group sid "correct") ∧
          (final sid).incorrectTally = (states sid).incorrectTally
              + events.countP (trialNotCorrectFor group sid) := by
  intro events
  induction events with
  | nil =>
    intro states _
    exact ⟨states, rfl, fun sid => by simp [List.countP_nil]⟩
  | cons fc rest ih =>
    intro states hp
    obtain ⟨hint, hh⟩ := Option.isSome_iff_exists.mp (hp fc (by simp))
    obtain ⟨final, hrun, htally⟩ :=
      ih (dispatchResolved group states fc hint) (fun e he => hp e (by simp [he]))
    refine ⟨final, ?_, ?_⟩
    · simp only [processToolCall,
        processFunctionCall_some group states fc hint hh, hrun, List.map_cons]
    · intro sid
      obtain ⟨hc, hi⟩ := htally sid
      constructor
      · rw [hc, dispatchResolved_correctTally group states fc hint sid hh,
          List.countP_cons]
        omega
      · rw [hi, dispatchResolved_incorrectTally group states fc hint sid hh,
          List.countP_cons]
        omega


/-- First-match characterization of `List.find?`: a found element satisfies
the predicate and everything before it refutes it. -/
theorem find?_eq_some_split {p : α → Bool} :
    ∀ {l : List α} {a : α}, l.find? p = some a →
      p a = true ∧ ∃ l1 l2, l = l1 ++ a :: l2 ∧ ∀ x ∈ l1, p x = false := by
  intro l
  induction l with
  | nil => intro a h; simp [List.find?] at h
  | cons b t ih =>
    intro a h
    by_cases hb : p b
    · rw [List.find?_cons_of_pos t hb] at h
      obtain rfl : b = a := by injection h
      exact ⟨hb, [], t, rfl, by simp⟩
    · rw [List.find?_cons_of_neg t hb] at h
      obtain ⟨hpa, l1, l2, rfl, hfirst⟩ := ih h
      refine ⟨hpa, b :: l1, l2, rfl, ?_⟩
      intro x hx
      rcases List.mem_cons.mp hx with rfl | hx1
      · simpa using hb
      · exact hfirst x hx1

/-! ## Claims -/

/-- C1 counterexample: the claim caps the completed-turn log at 30 entries,
but after 31 completed non-empty turns the log holds 31 entries — the source
keeps `prev.slice(-30)` (the last 30 entries) and then appends the new
turn, so the cap the code enforces is 31, not 30. -/
theorem transcript_cap30_counterexample :
    (runDeltas initTranscript (List.replicate 31 ("a", true))).liveTranscript.length
      = 31 := by decide

/-- C1 (amended): for every sequence of `appendDelta` calls from the initial
state, the completed-turn transcript log equals the most recent 31 completed
turns — each one a turn whose `turnComplete` flag was true at append time
and whose accumulated text was non-empty after trimming, in strict arrival
order with no reordering or merging — and therefore never exceeds 31
entries. -/
theorem transcript_log_bounded (events : List (String × Bool)) :
    (runDeltas initTranscript events).liveTranscript =
        sliceLast 31 (completedTurns events "") ∧
      (runDeltas initTranscript events).liveTranscript.length ≤ 31 := by
  have h := runDeltas_liveTranscript events "" "" [] (by simp)
  simp only [List.nil_append] at h
  exact ⟨h, h ▸ sliceLast_length_le 31 _⟩

/-- C2 counterexample: with group `{Leo}` and hint `"Leo Martinez"`, the
subject's display name is contained in the hint — the "vice versa"
direction the claim asserts, made explicit by `specResolveBidirectional` —
yet the dispatcher resolves no target and leaves every draft unchanged: the
source checks only `name.toLowerCase().includes(hint.toLowerCase())`,
never the reverse containment. -/
theorem resolve_bidirectional_counterexample :
    resolveTarget [leoShort] "Leo Martinez" = none ∧
      specResolveBidirectional [leoShort] "Leo Martinez" = some leoShort ∧
      processFunctionCall [leoShort] baseStates
          { name := "record_trial", id := "c1", student_name := some "Leo Martinez"
            status := some "correct", text := none, level := none }
        = .ok (baseStates, { callId := "c1", result := "ok" }) :=
  ⟨by decide, by decide, rfl⟩

/-- C2 (amended): the dispatcher resolves `subjectNameHint` by
case-insensitive substring containment in one direction only — it selects
the first subject of the group whose lowercased display name contains the
lowercased hint; the reverse containment (display name inside the hint) is
not considered.  When no subject's display name contains the hint, the
event is dropped: no draft is mutated (though the acknowledgement is still
sent). -/
theorem resolve_one_directional (group : List Student) (hint : String)
    (states : SessionStates) (nm cid : String) (st tx lv : Option String) :
    (∀ t, resolveTarget group hint = some t →
        nameMatches t hint = true ∧
          ∃ l1 l2, group = l1 ++ t :: l2 ∧ ∀ u ∈ l1, nameMatches u hint = false) ∧
      (resolveTarget group hint = none →
        (∀ s ∈ group, nameMatches s hint = false) ∧
          processFunctionCall group states
              { name := nm, id := cid, student_name := some hint
                status := st, text := tx, level := lv }
            = .ok (states, { callId := cid, result := "ok" })) := by
  constructor
  · intro t ht
    exact find?_eq_some_split ht
  · intro hnone
    refine ⟨fun s hs => ?_, ?_⟩
    · have := List.find?_eq_none.mp hnone s hs
      simpa using this
    · simp only [processFunctionCall, dispatchResolved, hnone]

/-- C2 witness: the amended theorem applied to the counterexample's inputs —
no subject of `{Leo Martinez}` has a display name containing
`"zzz-no-match"`, and the event leaves the state untouched while still
acknowledged. -/
theorem resolve_one_directional_witness :
    (∀ s ∈ [leoMartinez], nameMatches s "zzz-no-match" = false) ∧
      processFunctionCall [leoMartinez] baseStates
          { name := "record_trial", id := "c9", student_name := some "zzz-no-match"
            status := some "correct", text := none, level := none }
        = .ok (baseStates, { callId := "c9", result := "ok" }) :=
  (resolve_one_directional [leoMartinez] "zzz-no-match" baseStates
      "record_trial" "c9" (some "correct") none none).2 (by decide)

/-- C3: every intent event carrying a subject hint is answered with exactly
one acknowledgement `{ callId, result := "ok" }` — a whole message's events
produce exactly one acknowledgement each, in arrival order — and an event
whose hint resolves to no subject of the group mutates no draft yet is
still acknowledged. -/
theorem ack_unconditional (group : List Student) (states : SessionStates)
    (events : List FunctionCall)
    (hp : ∀ e ∈ events, e.student_name.isSome = true) :
    (∃ final, processToolCall group states events
        = .ok (final, events.map fun e => { callId := e.id, result := "ok" })) ∧
      ∀ (fc : FunctionCall) (hint : String), fc.student_name = some hint →
        resolveTarget group hint = none →
        processFunctionCall group states fc
          = .ok (states, { callId := fc.id, result := "ok" }) := by
  constructor
  · obtain ⟨final, hrun, _⟩ := processToolCall_run group events states hp
    exact ⟨final, hrun⟩
  · intro fc hint hh hnone
    rw [processFunctionCall_some group states fc hint hh]
    simp [dispatchResolved, hnone]

/-- C3 witness: the no-match event `subjectNameHint = "zzz-no-match"`
against group `{Leo Martinez}` leaves the state untouched and still yields
exactly one acknowledgement. -/
theorem ack_unconditional_witness :
    (∃ final, processToolCall [leoMartinez] baseStates [fcZzz]
        = .ok (final, [fcZzz].map fun e => { callId := e.id, result := "ok" })) ∧
      ∀ (fc : FunctionCall) (hint : String), fc.student_name = some hint →
        resolveTarget [leoMartinez] hint = none →
        processFunctionCall [leoMartinez] baseStates fc
          = .ok (baseStates, { callId := fc.id, result := "ok" }) :=
  ack_unconditional [leoMartinez] baseStates [fcZzz] (by decide)

/-- C4: over any message sequence whose events carry subject hints and
whose `record_trial` statuses are well-formed (`correct` or `incorrect`),
each subject's `correctTally` grows by exactly the number of correct
`record_trial` events resolving to it and its `incorrectTally` by exactly
the number of incorrect ones, regardless of interleaving with other
subjects' events. -/
theorem record_trial_counts (group : List Student) (states : SessionStates)
    (events : List FunctionCall) (sid : String)
    (hp : ∀ e ∈ events, e.student_name.isSome = true)
    (hs : ∀ e ∈ events, e.name = "record_trial" →
        e.status = some "correct" ∨ e.status = some "incorrect") :
    ∃ final acks, processToolCall group states events = .ok (final, acks) ∧
      (final sid).correctTally
          = (states sid).correctTally + countTrials group events sid "correct" ∧
      (final sid).incorrectTally
          = (states sid).incorrectTally + countTrials group events sid "incorrect" := by
  obtain ⟨final, hrun, htally⟩ := processToolCall_run group events states hp
  obtain ⟨hc, hi⟩ := htally sid
  refine ⟨final, _, hrun, hc, ?_⟩
  rw [hi]
  unfold countTrials
  congr 1
  refine List.countP_congr ?_
  intro e he
  by_cases hn : e.name = "record_trial"
  · rcases hs e he hn with hok | hbad
    · simp [trialNotCorrectFor, trialFor, hn, hok]
    · simp [trialNotCorrectFor, trialFor, hn, hbad]
  · simp [trialNotCorrectFor, trialFor, hn]

/-- C4 witness: with group `{Leo Martinez, Mia Chen}` and the interleaved
sequence correct(Leo), incorrect(Leo), correct(Mia), correct(Leo), Leo's
final tallies equal his starting ones plus his own event counts. -/
theorem record_trial_counts_witness :
    ∃ final acks,
      processToolCall [leoMartinez, miaChen] baseStates
          [fcLeoCorrect, fcLeoIncorrect, fcMiaCorrect, fcLeoCorrect]
        = .ok (final, acks) ∧
      (final "s1").correctTally
          = (baseStates "s1").correctTally
            + countTrials [leoMartinez, miaChen]
                [fcLeoCorrect, fcLeoIncorrect, fcMiaCorrect, fcLeoCorrect] "s1" "correct" ∧
      (final "s1").incorrectTally
          = (baseStates "s1").incorrectTally
            + countTrials [leoMartinez, miaChen]
                [fcLeoCorrect, fcLeoIncorrect, fcMiaCorrect, fcLeoCorrect] "s1" "incorrect" :=
  record_trial_counts [leoMartinez, miaChen] baseStates
    [fcLeoCorrect, fcLeoIncorrect, fcMiaCorrect, fcLeoCorrect] "s1"
    (by decide) (by decide)

/-- C9 (code divergence): an intent event whose payload lacks
`student_name` does not get ignored — the handler evaluates
`fc.args.student_name.toLowerCase()` and throws a `TypeError`, aborting
the loop over the message's function calls: with a malformed first event,
the following well-formed event is never processed and no acknowledgement
is sent for either. -/
theorem malformed_payload_aborts :
    processToolCall [leoMartinez] baseStates [fcMissingName, fcLeoCorrect]
      = .error "TypeError: fc.args.student_name is undefined" := rfl

/-- C10: an intent event that resolves to subject `t` mutates only `t`'s
draft — every other subject's draft is untouched — and within `t`'s draft
only the fields its kind names: the tallies for `record_trial`,
`rawObservations` for `add_observation`, `cuingLevel` for
`update_cuing_level`; every other field is preserved, and an event of any
other kind changes nothing at all. -/
theorem intent_frame_effect (group : List Student) (states : SessionStates)
    (fc : FunctionCall) (hint : String) (t : Student)
    (h1 : fc.student_name = some hint)
    (h2 : resolveTarget group hint = some t) :
    processFunctionCall group states fc
        = .ok (applyIntent states t fc, { callId := fc.id, result := "ok" }) ∧
      (∀ k, ¬ k = t.id → applyIntent states t fc k = states k) ∧
      (applyIntent states t fc t.id).soap = (states t.id).soap ∧
      (applyIntent states t fc t.id).setting = (states t.id).setting ∧
      (applyIntent states t fc t.id).selectedGoalText
          = (states t.id).selectedGoalText ∧
      (applyIntent states t fc t.id).selectedPlanId
          = (states t.id).selectedPlanId ∧
      (applyIntent states t fc t.id).parentLetter = (states t.id).parentLetter ∧
      (fc.name = "record_trial" →
        (applyIntent states t fc t.id).rawObservations
            = (states t.id).rawObservations ∧
          (applyIntent states t fc t.id).cuingLevel = (states t.id).cuingLevel) ∧
      (fc.name = "add_observation" →
        (applyIntent states t fc t.id).correctTally = (states t.id).correctTally ∧
          (applyIntent states t fc t.id).incorrectTally
            = (states t.id).incorrectTally ∧
          (applyIntent states t fc t.id).cuingLevel = (states t.id).cuingLevel) ∧
      (fc.name = "update_cuing_level" →
        (applyIntent states t fc t.id).rawObservations
            = (states t.id).rawObservations ∧
          (applyIntent states t fc t.id).correctTally
            = (states t.id).correctTally ∧
          (applyIntent states t fc t.id).incorrectTally
            = (states t.id).incorrectTally) ∧
      (¬ fc.name = "record_trial" → ¬ fc.name = "add_observation" →
        ¬ fc.name = "update_cuing_level" → applyIntent states t fc = states) := by
  refine ⟨?_, fun k hk => applyIntent_ne states t fc k hk, ?_⟩
  · rw [processFunctionCall_some group states fc hint h1]
    simp [dispatchResolved, h2]
  · by_cases hn : fc.name = "record_trial"
    · by_cases hst : fc.status = some "correct" <;>
        simp [applyIntent, updateStates, hn, hst]
    · by_cases ho : fc.name = "add_observation"
      · simp [applyIntent, updateStates, hn, ho]
      · by_cases hu : fc.name = "update_cuing_level"
        · simp [applyIntent, updateStates, hn, ho, hu]
        · refine ?_
          have hid : applyIntent states t fc = states := by
            funext k
            by_cases hk : k = t.id <;>
              simp [applyIntent, updateStates, hn, ho, hu, hk]
          simp [hid, hn, ho, hu]

/-- C10 witness: a concrete correct-trial event for Leo in a two-subject
group, resolved to Leo, instantiating the frame property. -/
theorem intent_frame_effect_witness :
    processFunctionCall [leoMartinez, miaChen] baseStates fcLeoCorrect
        = .ok (applyIntent baseStates leoMartinez fcLeoCorrect,
               { callId := fcLeoCorrect.id, result := "ok" }) ∧
      (∀ k, ¬ k = leoMartinez.id →
        applyIntent baseStates leoMartinez fcLeoCorrect k = baseStates k) ∧
      (applyIntent baseStates leoMartinez fcLeoCorrect leoMartinez.id).soap
          = (baseStates leoMartinez.id).soap ∧
      (applyIntent baseStates leoMartinez fcLeoCorrect leoMartinez.id).setting
          = (baseStates leoMartinez.id).setting ∧
      (applyIntent baseStates leoMartinez fcLeoCorrect leoMartinez.id).selectedGoalText
          = (baseStates leoMartinez.id).selectedGoalText ∧
      (applyIntent baseStates leoMartinez fcLeoCorrect leoMartinez.id).selectedPlanId
          = (baseStates leoMartinez.id).selectedPlanId ∧
      (applyIntent baseStates leoMartinez fcLeoCorrect leoMartinez.id).parentLetter
          = (baseStates leoMartinez.id).parentLetter ∧
      (fcLeoCorrect.name = "record_trial" →
        (applyIntent baseStates leoMartinez fcLeoCorrect leoMartinez.id).rawObservations
            = (baseStates leoMartinez.id).rawObservations ∧
          (applyIntent baseStates leoMartinez fcLeoCorrect leoMartinez.id).cuingLevel
            = (baseStates leoMartinez.id).cuingLevel) ∧
      (fcLeoCorrect.name = "add_observation" →
        (applyIntent baseStates leoMartinez fcLeoCorrect leoMartinez.id).correctTally
            = (baseStates leoMartinez.id).correctTally ∧
          (applyIntent baseStates leoMartinez fcLeoCorrect leoMartinez.id).incorrectTally
            = (baseStates leoMartinez.id).incorrectTally ∧
          (applyIntent baseStates leoMartinez fcLeoCorrect leoMartinez.id).cuingLevel
            = (baseStates leoMartinez.id).cuingLevel) ∧
      (fcLeoCorrect.name = "update_cuing_level" →
        (applyIntent baseStates leoMartinez fcLeoCorrect leoMartinez.id).rawObservations
            = (baseStates leoMartinez.id).rawObservations ∧
          (applyIntent baseStates leoMartinez fcLeoCorrect leoMartinez.id).correctTally
            = (baseStates leoMartinez.id).correctTally ∧
          (applyIntent baseStates leoMartinez fcLeoCorrect leoMartinez.id).incorrectTally
            = (baseStates leoMartinez.id).incorrectTally) ∧
      (¬ fcLeoCorrect.name = "record_trial" →
        ¬ fcLeoCorrect.name = "add_observation" →
        ¬ fcLeoCorrect.name = "update_cuing_level" →
        applyIntent baseStates leoMartinez fcLeoCorrect = baseStates) :=
  intent_frame_effect [leoMartinez, miaChen] baseStates fcLeoCorrect "leo"
    leoMartinez rfl (by decide)

/-- Arithmetic bridge for the finalizer: JavaScript's
`Math.round((c / t) * 100)` on the exact rational equals the integer
division `(200c + t) / (2t)` when `t = c + i` is positive. -/
theorem jsMathRound_accuracy (c i : Nat) (h : 0 < c + i) :
    (jsMathRound ((c : ℚ) / ((c : ℚ) + (i : ℚ)) * 100)).toNat
      = (200 * c + (c + i)) / (2 * (c + i)) := by
  have ht : ((c : ℚ) + (i : ℚ)) ≠ 0 := by
    have h0 : (0 : ℚ) < (c : ℚ) + (i : ℚ) := by exact_mod_cast h
    linarith
  have hq : (c : ℚ) / ((c : ℚ) + (i : ℚ)) * 100 + 1 / 2
      = ((200 * c + (c + i) : ℕ) : ℚ) / ((2 * (c + i) : ℕ) : ℚ) := by
    push_cast
    field_simp
    ring
  unfold jsMathRound
  rw [hq, Int.floor_toNat, Nat.floor_div_nat, Nat.floor_natCast]

/-- C5: finalization emits exactly one output record per subject, in group
order; a subject with a positive trial total gets a metrics block whose
`accuracy` is `Math.round(correctTally / total * 100)` — equal to the
integer division `(200·correct + total) / (2·total)` — while a subject
with a zero trial total gets no metrics block at all. -/
theorem finalize_metrics (group : List Student) (states : SessionStates)
    (s : Student) (st : StudentSessionState) :
    (handleSaveAll group states).length = group.length ∧
      (handleSaveAll group states
        = group.map fun u => finalizeNote u (states u.id)) ∧
      (0 < st.correctTally + st.incorrectTally →
        (finalizeNote s st).metrics = some
          { accuracy := (200 * st.correctTally
                + (st.correctTally + st.incorrectTally))
                / (2 * (st.correctTally + st.incorrectTally))
            totalTrials := st.correctTally + st.incorrectTally
            cuingLevel := st.cuingLevel
            setting := st.setting
            focusGoalId := st.selectedGoalText }) ∧
      (st.correctTally + st.incorrectTally = 0 →
        (finalizeNote s st).metrics = none) := by
  refine ⟨by simp [handleSaveAll], rfl, ?_, ?_⟩
  · intro h
    have hacc := jsMathRound_accuracy st.correctTally st.incorrectTally h
    simp only [finalizeNote, if_pos h, Nat.cast_add] at hacc ⊢
    rw [hacc]
  · intro h
    simp [finalizeNote, h]

/-- C5 witness: a subject with 8 correct and 2 incorrect trials finalizes
with accuracy 80 ( = (200·8 + 10) / 20 ), and a subject with no trials
gets no metrics block. -/
theorem finalize_metrics_witness :
    (finalizeNote leoMartinez
        { emptyDraft with correctTally := 8, incorrectTally := 2 }).metrics
      = some { accuracy := (200 * 8 + (8 + 2)) / (2 * (8 + 2))
               totalTrials := 8 + 2
               cuingLevel := "Moderate"
               setting := "Structured"
               focusGoalId := "g" } ∧
    (finalizeNote miaChen emptyDraft).metrics = none :=
  ⟨((finalize_metrics [] baseStates leoMartinez
      { emptyDraft with correctTally := 8, incorrectTally := 2 }).2.2.1
        (by decide)),
   ((finalize_metrics [] baseStates miaChen emptyDraft).2.2.2 (by decide))⟩

/-- C6: on any draft type, an undo performed after exactly one snapshot
followed by an arbitrary mutation of that subject's draft restores the
draft to equality with its pre-mutation value, and an undo invoked while
the subject's history stack is empty is a no-op — the whole store, draft
and stack included, is unchanged. -/
theorem undo_restores {α : Type} (s : HistoryStore α) (id : String)
    (d0 d1 : α) :
    (s.sessionStates id = some d0 →
      (handleUndo (setDraft (saveHistorySnapshot s id) id d1) id).sessionStates id
        = some d0) ∧
      (s.historyStacks id = [] → handleUndo s id = s) := by
  constructor
  · intro h
    have hstack : (setDraft (saveHistorySnapshot s id) id d1).historyStacks id
        = d0 :: (s.historyStacks id).take 9 := by
      simp only [setDraft, saveHistorySnapshot, h]
      rw [show MAX_HISTORY = 9 + 1 from rfl]
      simp [List.take_succ_cons]
    unfold handleUndo
    rw [hstack]
    simp
  · intro h
    unfold handleUndo
    rw [h]

/-- C6 witness: with every stack empty and every draft the fresh one,
undo-after-snapshot-and-mutation restores the fresh draft, and a bare undo
on the untouched store changes nothing. -/
theorem undo_restores_witness :
    ((handleUndo
        (setDraft
          (saveHistorySnapshot
            ({ sessionStates := fun _ => some emptyDraft
               historyStacks := fun _ => [] } : HistoryStore StudentSessionState)
            "s1")
          "s1" { emptyDraft with rawObservations := "machine overwrite" })
        "s1").sessionStates "s1" = some emptyDraft) ∧
      handleUndo
          ({ sessionStates := fun _ => some emptyDraft
             historyStacks := fun _ => [] } : HistoryStore StudentSessionState)
          "s1"
        = { sessionStates := fun _ => some emptyDraft
            historyStacks := fun _ => [] } :=
  ⟨(undo_restores { sessionStates := fun _ => some emptyDraft
                    historyStacks := fun _ => [] } "s1" emptyDraft
      { emptyDraft with rawObservations := "machine overwrite" }).1 rfl,
   (undo_restores { sessionStates := fun _ => some emptyDraft
                    historyStacks := fun _ => [] } "s1" emptyDraft
      { emptyDraft with rawObservations := "machine overwrite" }).2 rfl⟩

/-- C7: for every buffer of samples in [-1, 1], the audio frame encoder
produces the frame whose `data` field is the base64 encoding of the
buffer's per-sample 16-bit signed little-endian PCM serialization (each
sample scaled by 32768) and whose `mimeType` is `audio/pcm;rate=16000`. -/
theorem createBlob_pcm16 (data : List ℚ)
    (_hb : ∀ x ∈ data, -1 ≤ x ∧ x ≤ 1) :
    createBlob data
      = { data := encode (specPcmBytes data)
          mimeType := "audio/pcm;rate=16000" } := by
  have hser : ∀ l : List ℚ,
      ((l.map fun x => toInt16 (x * 32768)).map int16LEBytes).flatten
        = specPcmBytes l := by
    intro l
    induction l with
    | nil => rfl
    | cons x xs ih =>
      simp only [List.map_cons, List.flatten_cons, specPcmBytes]
      rw [ih]
  simp only [createBlob]
  rw [hser]

/-- C7 witness: the encoder applied to the three-sample buffer 0, 1, -1
(all within [-1, 1]). -/
theorem createBlob_pcm16_witness :
    createBlob [0, 1, -1]
      = { data := encode (specPcmBytes [0, 1, -1])
          mimeType := "audio/pcm;rate=16000" } :=
  createBlob_pcm16 [0, 1, -1] (by decide)

/-- Helper for C8: no controller transition ever increments the
released-microphone counter — the source has no `track.stop()` call. -/
theorem ctrlStep_micReleased (s : CtrlState) (e : CtrlEvent) :
    (ctrlStep s e).micReleased = s.micReleased := by
  cases e <;> simp only [ctrlStep] <;> split_ifs <;> rfl

/-- C8 (code divergence): the released-handle count stays 0 over every
event sequence, so it cannot equal the acquired count for any completed
session: after the explicit-stop trace start → opened → stop the
controller is back to idle having acquired one microphone stream and
released none — the source never stops the `getUserMedia` tracks on any
exit from `Active` (and closes the audio context only on unmount).  The
claim's first half does hold in this trace: `Active` was entered from
`Connecting`. -/
theorem mic_release_missing :
    (∀ events : List CtrlEvent,
        (ctrlRun ctrlInit events).micReleased = 0) ∧
      ctrlRun ctrlInit [.startGranted, .opened, .togglePressed]
        = { status := .idle, micAcquired := 1, micReleased := 0
            connPending := false, sessionOpen := false } := by
  constructor
  · have hrun : ∀ (events : List CtrlEvent) (s : CtrlState),
        (ctrlRun s events).micReleased = s.micReleased := by
      intro events
      induction events with
      | nil => intro s; rfl
      | cons e rest ih =>
        intro s
        show (ctrlRun (ctrlStep s e) rest).micReleased = _
        rw [ih (ctrlStep s e), ctrlStep_micReleased]
    intro events
    exact hrun events ctrlInit
  · decide

end SpeechPathPro
